import Mathlib

/-
Verification of the Matrix component in src/matrix_stable.rs.

The Matrix type wraps a fixed-capacity copy-on-write vector
(StaticCowVec) of exactly K * M scalars, viewed as a K-row, M-column
grid in column-major layout: logical entry (row r, col c) lives at flat
offset r + c * K.  The StaticCowVec source itself is not part of src/,
so it is modelled from the spec; the Matrix operations (indexing,
transpose, multiplication marshalling) are translated directly from the
Rust source.  Machine scalars (f32) are modelled by an arbitrary
commutative ring, instantiated at ℤ for concrete computations (every
literal in the repository tests is a small integer, on which f32
arithmetic is exact).  Buffers are modelled as total functions
Nat → T; offsets at or beyond the capacity are outside the vector and
carry junk values that no theorem depends on.
-/

namespace Slas

/-- Storage mode of the copy-on-write vector: it either borrows an
external buffer or owns its storage. -/
inductive Mode where
  | Borrowed
  | Owned
deriving DecidableEq

/-- Modelled from the spec: the fixed-capacity copy-on-write vector
(StaticCowVec, whose source file is not under src/).  It holds exactly
`N` scalars of type `T` and tracks whether it borrows or owns its
backing storage.  Storage is modelled as a total function from flat
offsets to scalars. -/
structure StaticCowVec (T : Type) (N : Nat) where
  mode : Mode
  data : Nat → T

/-- Modelled from the spec: `zeros()` builds an Owned vector with every
element equal to the scalar zero. -/
def StaticCowVec.zeros (T : Type) [Zero T] (N : Nat) : StaticCowVec T N :=
  { mode := Mode.Owned, data := fun _ => 0 }

/-- Modelled from the spec: `is_borrowed()` observes the storage mode. -/
def StaticCowVec.is_borrowed {T : Type} {N : Nat} (v : StaticCowVec T N) : Bool :=
  match v.mode with
  | Mode.Borrowed => true
  | Mode.Owned => false

/-- Modelled from the spec: `is_owned()` observes the storage mode. -/
def StaticCowVec.is_owned {T : Type} {N : Nat} (v : StaticCowVec T N) : Bool :=
  match v.mode with
  | Mode.Borrowed => false
  | Mode.Owned => true

/-- Modelled from the spec: unchecked read at a flat offset.  The caller
is responsible for the bound `i < N`; an out-of-range offset reads junk
in this model (undefined behavior in the source). -/
def StaticCowVec.get_unchecked {T : Type} {N : Nat} (v : StaticCowVec T N) (i : Nat) : T :=
  v.data i

/-- Modelled from the spec: writing one element through the unchecked
mutable accessor.  If the vector is Borrowed it is first promoted to
Owned by duplicating the full contents into fresh storage, then the
element at offset `i` is overwritten; if already Owned the write applies
directly.  In both cases the functional result is an Owned vector whose
contents agree with the old contents everywhere except offset `i`. -/
def StaticCowVec.get_unchecked_mut_set {T : Type} {N : Nat} (v : StaticCowVec T N)
    (i : Nat) (x : T) : StaticCowVec T N :=
  { mode := Mode.Owned, data := Function.update v.data i x }

/-- Modelled from the spec: the read-only raw pointer accessor, exposing
the contiguous storage for backend interop. -/
def StaticCowVec.as_ptr {T : Type} {N : Nat} (v : StaticCowVec T N) : Nat → T :=
  v.data

/-- Modelled from the spec: taking the mutable raw pointer triggers the
same copy-on-write promotion as a write, since returning a mutable
pointer implies intent to write.  The result is the vector after the
promotion (Owned, contents duplicated unchanged). -/
def StaticCowVec.as_mut_ptr {T : Type} {N : Nat} (v : StaticCowVec T N) : StaticCowVec T N :=
  { mode := Mode.Owned, data := v.data }

/-- Modelled from the spec: borrow-construction from an external buffer
of exactly `N` elements (the `From` impl for a borrowed fixed-size
array).  The vector becomes a read-through Borrowed view of the
source buffer. -/
def StaticCowVec.from_ref {T : Type} {N : Nat} (buf : Nat → T) : StaticCowVec T N :=
  { mode := Mode.Borrowed, data := buf }

/-- Modelled from the spec: by-value construction from a buffer of
exactly `N` elements (the `From` impl for a fixed-size array taken by
value).  The vector owns a copy of the buffer. -/
def StaticCowVec.from_val {T : Type} {N : Nat} (buf : Nat → T) : StaticCowVec T N :=
  { mode := Mode.Owned, data := buf }

/-- The Matrix type from src/matrix_stable.rs: a K-row, M-column wrapper
around a StaticCowVec of capacity K * M. -/
abbrev Matrix (T : Type) (K M : Nat) := StaticCowVec T (K * M)

/-- The column-major offset mapping used by every 2D accessor in the
source: index pair `[r, c]` maps to flat offset `r + c * K`
(`n[0] + n[1] * K` in the Rust source). -/
def matOffset (K r c : Nat) : Nat :=
  r + c * K

/-- `Matrix::zeros` from the source: delegates to `StaticCowVec::zeros`. -/
def Matrix.zeros (T : Type) [Zero T] (K M : Nat) : Matrix T K M :=
  StaticCowVec.zeros T (K * M)

/-- `Matrix::get_unchecked` from the source: unchecked 2D read at
`[r, c]`, delegating to the vector at offset `r + c * K`. -/
def Matrix.get_unchecked {T : Type} {K M : Nat} (A : Matrix T K M) (r c : Nat) : T :=
  StaticCowVec.get_unchecked A (matOffset K r c)

/-- `Matrix::get_unchecked_mut` from the source, used as a writer:
unchecked 2D write at `[r, c]`, delegating to the vector at offset
`r + c * K` (with copy-on-write promotion from the vector). -/
def Matrix.set_unchecked {T : Type} {K M : Nat} (A : Matrix T K M) (r c : Nat) (x : T) :
    Matrix T K M :=
  StaticCowVec.get_unchecked_mut_set A (matOffset K r c) x

/-- The out-of-bounds panic message of the checked Index and IndexMut
impls: `Index [r, c] out of bounds [K, M]`. -/
def boundsMsg (r c K M : Nat) : String :=
  "Index [" ++ toString r ++ ", " ++ toString c ++ "] out of bounds [" ++
    toString K ++ ", " ++ toString M ++ "]"

/-- The checked `Index` impl from the source: asserts `r < K && c < M`
(trapping with the bounds message otherwise) and then performs the
unchecked read at offset `r + c * K`.  The trap is modelled as
`Except.error` carrying the panic message. -/
def Matrix.index {T : Type} {K M : Nat} (A : Matrix T K M) (r c : Nat) : Except String T :=
  if r < K ∧ c < M then Except.ok (A.data (matOffset K r c))
  else Except.error (boundsMsg r c K M)

/-- The checked `IndexMut` impl from the source, used as a writer:
asserts `r < K && c < M` (trapping with the bounds message otherwise)
and then performs the unchecked write at offset `r + c * K`. -/
def Matrix.index_mut_set {T : Type} {K M : Nat} (A : Matrix T K M) (r c : Nat) (x : T) :
    Except String (Matrix T K M) :=
  if r < K ∧ c < M then
    Except.ok (StaticCowVec.get_unchecked_mut_set A (matOffset K r c) x)
  else Except.error (boundsMsg r c K M)

/-- Borrow-construction of a Matrix from a flat buffer of K * M
elements (the `From<&[T; K * M]>` impl from the source, delegating to
the borrowed StaticCowVec conversion). -/
def Matrix.from_ref {T : Type} {K M : Nat} (buf : Nat → T) : Matrix T K M :=
  StaticCowVec.from_ref buf

/-- By-value construction of a Matrix from a flat buffer of K * M
elements (the `From<[T; K * M]>` impl from the source, delegating to
the owned StaticCowVec conversion). -/
def Matrix.from_val {T : Type} {K M : Nat} (buf : Nat → T) : Matrix T K M :=
  StaticCowVec.from_val buf

/-- `Matrix::transpose` from the source: allocate a zeroed M-row,
K-column buffer, then for every x in 0..K and y in 0..M write
`buffer[y, x] = self[x, y]` through the unchecked accessors. -/
def Matrix.transpose {T : Type} [Zero T] {K M : Nat} (A : Matrix T K M) : Matrix T M K :=
  (List.range K).foldl
    (fun b x =>
      (List.range M).foldl
        (fun b2 y => Matrix.set_unchecked b2 y x (Matrix.get_unchecked A x y)) b)
    (Matrix.zeros T M K)

/-- The CBLAS layout flag, from the cblas interface used by the source. -/
inductive CBLAS_LAYOUT where
  | CblasRowMajor
  | CblasColMajor
deriving DecidableEq

/-- The CBLAS operand-transposition flag, from the cblas interface used
by the source. -/
inductive CBLAS_TRANSPOSE where
  | CblasNoTrans
  | CblasTrans
deriving DecidableEq

/-- The full argument list of one `cblas_sgemm` invocation, in the order
of the C interface: layout, two transpose flags, the three dimension
integers m, n, k, the product scale factor alpha, the pointer and
leading dimension of operand a, the pointer and leading dimension of
operand b, the accumulation scale factor beta, and the pointer and
leading dimension of the output c (captured here as the output buffer
contents at call time). -/
structure GemmCall (T : Type) where
  layout : CBLAS_LAYOUT
  transa : CBLAS_TRANSPOSE
  transb : CBLAS_TRANSPOSE
  m : Nat
  n : Nat
  k : Nat
  alpha : T
  a : Nat → T
  lda : Nat
  b : Nat → T
  ldb : Nat
  beta : T
  c : Nat → T
  ldc : Nat

/-- Modelled from the spec: the dense multiply backend (`cblas_sgemm`),
an external collaborator outside the core.  For the row-major,
no-transpose case (the only case the component invokes) it writes
`c[i * ldc + j] = alpha * (sum over t < k of a[i * lda + t]
* b[t * ldb + j]) + beta * c[i * ldc + j]` for every i < m and j < n,
leaving all other storage untouched.  Scalar arithmetic is modelled as
exact (a commutative ring). -/
def gemmRun {T : Type} [CommRing T] (g : GemmCall T) : Nat → T :=
  fun o =>
    if o / g.ldc < g.m ∧ o % g.ldc < g.n then
      g.alpha *
          ((List.range g.k).map
            (fun t => g.a (o / g.ldc * g.lda + t) * g.b (t * g.ldb + o % g.ldc))).sum
        + g.beta * g.c o
    else g.c o

/-- The exact argument list that `Mul::mul` in the source passes to
`cblas_sgemm`: row-major, no transposition, dimensions `M as i32`,
`N as i32`, `K as i32`, alpha 1, the left operand pointer with leading
dimension K, the right operand pointer with leading dimension N, beta 0,
and the mutable pointer of the freshly zeroed N-row M-column output
buffer with leading dimension N. -/
def Matrix.mulCall {T : Type} [CommRing T] {M N K : Nat}
    (self : Matrix T K M) (other : Matrix T N K) : GemmCall T :=
  { layout := CBLAS_LAYOUT.CblasRowMajor
    transa := CBLAS_TRANSPOSE.CblasNoTrans
    transb := CBLAS_TRANSPOSE.CblasNoTrans
    m := M
    n := N
    k := K
    alpha := 1
    a := StaticCowVec.as_ptr self
    lda := K
    b := StaticCowVec.as_ptr other
    ldb := N
    beta := 0
    c := (StaticCowVec.as_mut_ptr (Matrix.zeros T N M)).data
    ldc := N }

/-- `Mul::mul` from the source: allocate a zeroed Owned output buffer of
shape N×M, make exactly one backend call with the marshalled arguments,
and return the buffer (still Owned) as mutated by the backend. -/
def Matrix.mul {T : Type} [CommRing T] {M N K : Nat}
    (self : Matrix T K M) (other : Matrix T N K) : Matrix T N M :=
  { mode := Mode.Owned, data := gemmRun (Matrix.mulCall self other) }

/-- The compile-time shape constraint of the `Mul` impl in the source: a
left operand of shape leftRows×leftCols accepts exactly the right
operands whose column count equals the left row count (the impl is
`Mul<Matrix<N, K>> for Matrix<K, M>`, so the right operand column
parameter must be the left operand row parameter).  A multiplication of
incompatible shapes cannot be constructed. -/
def mulShapes (leftRows leftCols rightRows rightCols : Nat) : Prop :=
  rightCols = leftRows

/-- The flat buffer of the first multiplication test in the source. -/
def buf6 : Nat → ℤ :=
  fun n => ([1, 2, 3, 4, 5, 6] : List ℤ).getD n 0

/-- The 3-row 2-column left operand of the first multiplication test. -/
def testM : Matrix ℤ 3 2 :=
  Matrix.from_val buf6

/-- The 2-row 3-column right operand of the first multiplication test. -/
def testN : Matrix ℤ 2 3 :=
  Matrix.from_val (fun n => ([10, 11, 20, 21, 30, 31] : List ℤ).getD n 0)

/-- The 3-row 4-column left operand of the second multiplication test. -/
def testM2 : Matrix ℤ 3 4 :=
  Matrix.from_val (fun n => ([1, 2, 3, 4, 5, 6, 7, 8, 9, 10, 11, 12] : List ℤ).getD n 0)

/-- The 2-row 3-column right operand of the second multiplication test. -/
def testN2 : Matrix ℤ 2 3 :=
  Matrix.from_val (fun n => ([3, 6, 8, 10, 9, 17] : List ℤ).getD n 0)

/-- Reading one offset of the vector after an unchecked write: the
written offset holds the new value, every other offset is preserved. -/
theorem get_unchecked_mut_set_data {T : Type} {N : Nat} (v : StaticCowVec T N)
    (i : Nat) (x : T) (o : Nat) :
    (StaticCowVec.get_unchecked_mut_set v i x).data o = if o = i then x else v.data o := by
  simp [StaticCowVec.get_unchecked_mut_set, Function.update_apply]

/-- Contents after the inner transpose loop at fixed column x: offsets
of the form y + x * M with y drawn from the iteration list now hold the
input entry (x, y); all other offsets are unchanged. -/
theorem transpose_inner_data {T : Type} {K M : Nat} (A : Matrix T K M) (x : Nat)
    (ys : List Nat) (buf : Matrix T M K) (o : Nat) :
    ((ys.foldl (fun b2 y => Matrix.set_unchecked b2 y x (Matrix.get_unchecked A x y)) buf)).data o
      = if x * M ≤ o ∧ o - x * M ∈ ys then A.data (matOffset K x (o - x * M))
        else buf.data o := by
  induction ys generalizing buf with
  | nil => simp
  | cons y ys ih =>
      rw [List.foldl_cons, ih]
      by_cases h1 : x * M ≤ o ∧ o - x * M ∈ ys
      · rw [if_pos h1, if_pos ⟨h1.1, List.mem_cons_of_mem _ h1.2⟩]
      · rw [if_neg h1]
        simp only [Matrix.set_unchecked]
        rw [get_unchecked_mut_set_data]
        by_cases h2 : o = matOffset M y x
        · have hle : x * M ≤ o := by
            rw [h2]
            simp only [matOffset]
            omega
          have hsub : o - x * M = y := by
            rw [h2]
            simp only [matOffset]
            omega
          rw [if_pos h2, if_pos ⟨hle, by rw [hsub]; exact List.mem_cons_self y ys⟩, hsub]
          rfl
        · rw [if_neg h2, if_neg]
          rintro ⟨ha, hb⟩
          rcases List.mem_cons.mp hb with h3 | h3
          · apply h2
            simp only [matOffset]
            omega
          · exact h1 ⟨ha, h3⟩

/-- The inner transpose loop preserves Owned storage. -/
theorem transpose_inner_mode {T : Type} {K M : Nat} (A : Matrix T K M) (x : Nat)
    (ys : List Nat) (buf : Matrix T M K) (h : buf.mode = Mode.Owned) :
    ((ys.foldl (fun b2 y => Matrix.set_unchecked b2 y x (Matrix.get_unchecked A x y)) buf)).mode
      = Mode.Owned := by
  induction ys generalizing buf with
  | nil => exact h
  | cons y ys ih => exact ih _ rfl

/-- The outer transpose loop preserves Owned storage. -/
theorem transpose_outer_mode {T : Type} {K M : Nat} (A : Matrix T K M)
    (xs : List Nat) (buf : Matrix T M K) (h : buf.mode = Mode.Owned) :
    ((xs.foldl
        (fun b x =>
          (List.range M).foldl
            (fun b2 y => Matrix.set_unchecked b2 y x (Matrix.get_unchecked A x y)) b)
        buf)).mode = Mode.Owned := by
  induction xs generalizing buf with
  | nil => exact h
  | cons x xs ih => exact ih _ (transpose_inner_mode A x _ _ h)

/-- Contents after the outer transpose loop: offset o holds the input
entry (o / M, o % M) when the column index o / M was iterated, and is
unchanged otherwise. -/
theorem transpose_outer_data {T : Type} {K M : Nat} (A : Matrix T K M)
    (xs : List Nat) (buf : Matrix T M K) (o : Nat) :
    ((xs.foldl
        (fun b x =>
          (List.range M).foldl
            (fun b2 y => Matrix.set_unchecked b2 y x (Matrix.get_unchecked A x y)) b)
        buf)).data o
      = if 0 < M ∧ o / M ∈ xs then A.data (matOffset K (o / M) (o % M))
        else buf.data o := by
  induction xs generalizing buf with
  | nil => simp
  | cons x xs ih =>
      rw [List.foldl_cons, ih]
      by_cases h1 : 0 < M ∧ o / M ∈ xs
      · rw [if_pos h1, if_pos ⟨h1.1, List.mem_cons_of_mem _ h1.2⟩]
      · rw [if_neg h1, transpose_inner_data]
        by_cases h2 : 0 < M ∧ o / M = x
        · obtain ⟨hM, hx⟩ := h2
          subst hx
          have hdm := Nat.div_add_mod o M
          rw [Nat.mul_comm] at hdm
          have h6 : o / M * M ≤ o := Nat.div_mul_le_self o M
          have h7 : o % M < M := Nat.mod_lt o hM
          have h5 : o - o / M * M = o % M := by omega
          rw [if_pos ⟨h6, by rw [h5]; exact List.mem_range.mpr h7⟩,
            if_pos ⟨hM, List.mem_cons_self _ _⟩, h5]
        · have hinner : ¬(x * M ≤ o ∧ o - x * M ∈ List.range M) := by
            rintro ⟨ha, hb⟩
            have hblt : o - x * M < M := List.mem_range.mp hb
            have hM0 : 0 < M := by omega
            have hi : o < (x + 1) * M := by
              rw [Nat.add_mul, Nat.one_mul]
              omega
            exact h2 ⟨hM0, Nat.div_eq_of_lt_le ha hi⟩
          have hout : ¬(0 < M ∧ o / M ∈ x :: xs) := by
            rintro ⟨hM0, hmem⟩
            rcases List.mem_cons.mp hmem with h3 | h3
            · exact h2 ⟨hM0, h3⟩
            · exact h1 ⟨hM0, h3⟩
          rw [if_neg hinner, if_neg hout]

/-- The transposed matrix always has Owned storage. -/
theorem transpose_mode {T : Type} [Zero T] {K M : Nat} (A : Matrix T K M) :
    (Matrix.transpose A).mode = Mode.Owned :=
  transpose_outer_mode A (List.range K) (Matrix.zeros T M K) rfl

/-- Pointwise characterisation of transpose on flat storage: the output
entry (row c, col r) is the input entry (row r, col c). -/
theorem transpose_entry {T : Type} [Zero T] {K M : Nat} (A : Matrix T K M)
    (r c : Nat) (hr : r < K) (hc : c < M) :
    (Matrix.transpose A).data (matOffset M c r) = A.data (matOffset K r c) := by
  have hM : 0 < M := Nat.lt_of_le_of_lt (Nat.zero_le c) hc
  have h0 : (Matrix.transpose A).data (matOffset M c r)
      = if 0 < M ∧ matOffset M c r / M ∈ List.range K
        then A.data (matOffset K (matOffset M c r / M) (matOffset M c r % M))
        else (Matrix.zeros T M K).data (matOffset M c r) :=
    transpose_outer_data A (List.range K) (Matrix.zeros T M K) (matOffset M c r)
  have hdiv : matOffset M c r / M = r := by
    simp only [matOffset]
    rw [Nat.add_mul_div_right c r hM, Nat.div_eq_of_lt hc, Nat.zero_add]
  have hmod : matOffset M c r % M = c := by
    simp only [matOffset]
    rw [Nat.add_mul_mod_self_right, Nat.mod_eq_of_lt hc]
  rw [h0, if_pos ⟨hM, by rw [hdiv]; exact List.mem_range.mpr hr⟩, hdiv, hmod]

/-- The column-major offset of a valid index pair is below capacity. -/
theorem colMajorOff_lt {K M x y : Nat} (hx : x < K) (hy : y < M) :
    matOffset K x y < K * M := by
  calc matOffset K x y = x + y * K := rfl
    _ < K + y * K := Nat.add_lt_add_right hx _
    _ = (y + 1) * K := by ring
    _ ≤ M * K := mul_le_mul_right' (Nat.succ_le_of_lt hy) K
    _ = K * M := Nat.mul_comm M K

/-- C8: every unchecked access performed inside transpose is in range:
for every loop iteration with x < K and y < M, the read offset
x + y * K into the K * M element input and the write offset y + x * M
into the M * K element output (both formed by the column-major mapping
matOffset that the unchecked accessors use) are strictly below the
respective capacities. -/
theorem transpose_unchecked_in_range {K M : Nat} (x y : Nat) (hx : x < K) (hy : y < M) :
    matOffset K x y < K * M ∧ matOffset M y x < M * K :=
  ⟨colMajorOff_lt hx hy, colMajorOff_lt hy hx⟩

/-- Witness for C8 at the concrete shape K = 2, M = 3, x = 1, y = 2. -/
theorem transpose_unchecked_in_range_witness :
    matOffset 2 1 2 < 2 * 3 ∧ matOffset 3 2 1 < 3 * 2 :=
  transpose_unchecked_in_range 1 2 (by decide) (by decide)

/-- C3: for every matrix A of shape K×M, transpose yields a new Owned
matrix of shape M×K (visible in the result type) whose checked read at
(row c, col r) equals the checked read of A at (row r, col c) for every
r < K and c < M.  Transpose is a pure function of A backed by a freshly
allocated zeroed buffer, so the input is never mutated and no storage is
shared with it. -/
theorem transpose_spec {T : Type} [Zero T] {K M : Nat} (A : Matrix T K M)
    (r c : Nat) (hr : r < K) (hc : c < M) :
    (Matrix.transpose A).mode = Mode.Owned ∧
      Matrix.index (Matrix.transpose A) c r = Matrix.index A r c := by
  refine ⟨transpose_mode A, ?_⟩
  simp only [Matrix.index]
  rw [if_pos ⟨hc, hr⟩, if_pos ⟨hr, hc⟩, transpose_entry A r c hr hc]

/-- Witness for C3 on the 3×2 test matrix at r = 2, c = 1. -/
theorem transpose_spec_witness :
    (Matrix.transpose testM).mode = Mode.Owned ∧
      Matrix.index (Matrix.transpose testM) 1 2 = Matrix.index testM 2 1 :=
  transpose_spec testM 2 1 (by decide) (by decide)

/-- C4: transposing twice reproduces every entry: for every matrix A of
shape K×M and every r < K, c < M, the checked read of
transpose (transpose A) at (r, c) equals the checked read of A at
(r, c). -/
theorem transpose_involution {T : Type} [Zero T] {K M : Nat} (A : Matrix T K M)
    (r c : Nat) (hr : r < K) (hc : c < M) :
    Matrix.index (Matrix.transpose (Matrix.transpose A)) r c = Matrix.index A r c := by
  simp only [Matrix.index]
  rw [if_pos ⟨hr, hc⟩, if_pos ⟨hr, hc⟩]
  have e1 := transpose_entry (Matrix.transpose A) c r hc hr
  have e2 := transpose_entry A r c hr hc
  rw [e1, e2]

/-- Witness for C4 on the 3×2 test matrix at r = 2, c = 0. -/
theorem transpose_involution_witness :
    Matrix.index (Matrix.transpose (Matrix.transpose testM)) 2 0 = Matrix.index testM 2 0 :=
  transpose_involution testM 2 0 (by decide) (by decide)

/-- C5: checked 2D indexing on a K×M matrix, read or write, traps
exactly when the requested row is ≥ K or the requested column is ≥ M,
with a message naming the requested index pair and the declared shape
[K, M]; on every valid pair it never traps: the read returns the element
at column-major offset r + c * K and the write updates that offset. -/
theorem index_bounds_spec {T : Type} {K M : Nat} (A : Matrix T K M) (r c : Nat) :
    (Matrix.index A r c = Except.error (boundsMsg r c K M) ↔ K ≤ r ∨ M ≤ c) ∧
    (∀ x : T,
      (Matrix.index_mut_set A r c x = Except.error (boundsMsg r c K M) ↔ K ≤ r ∨ M ≤ c)) ∧
    (r < K → c < M →
      Matrix.index A r c = Except.ok (A.data (matOffset K r c)) ∧
      ∀ x : T, Matrix.index_mut_set A r c x
        = Except.ok (StaticCowVec.get_unchecked_mut_set A (matOffset K r c) x)) := by
  by_cases h : r < K ∧ c < M
  · have hne : ¬(K ≤ r ∨ M ≤ c) := by omega
    refine ⟨?_, fun x => ?_, fun hr hc => ⟨?_, fun x => ?_⟩⟩
    · simp only [Matrix.index, if_pos h]
      exact ⟨fun he => absurd he (by simp), fun hge => absurd hge hne⟩
    · simp only [Matrix.index_mut_set, if_pos h]
      exact ⟨fun he => absurd he (by simp), fun hge => absurd hge hne⟩
    · simp only [Matrix.index, if_pos h]
    · simp only [Matrix.index_mut_set, if_pos h]
  · have hge : K ≤ r ∨ M ≤ c := by omega
    refine ⟨?_, fun x => ?_, fun hr hc => absurd ⟨hr, hc⟩ h⟩
    · simp only [Matrix.index, if_neg h]
      exact ⟨fun _ => hge, fun _ => trivial⟩
    · simp only [Matrix.index_mut_set, if_neg h]
      exact ⟨fun _ => hge, fun _ => trivial⟩

/-- Witness for C5: the checked read of the 3×2 test matrix at (1, 1)
succeeds with the element at column-major offset 1 + 1 * 3 = 4. -/
theorem index_bounds_spec_witness : Matrix.index testM 1 1 = Except.ok (5 : ℤ) :=
  (((index_bounds_spec testM 1 1).2.2 (by decide) (by decide)).1).trans (by rfl)

/-- C6: constructing a K×M matrix from a flat buffer of K * M elements,
borrowed or by value, and reading back through checked 2D indexing
reproduces the column-major mapping exactly: entry (row r, col c) is
buffer element r + c * K. -/
theorem from_flat_colmajor {T : Type} {K M : Nat} (buf : Nat → T) (r c : Nat)
    (hr : r < K) (hc : c < M) :
    Matrix.index (Matrix.from_ref buf : Matrix T K M) r c
        = Except.ok (buf (matOffset K r c)) ∧
      Matrix.index (Matrix.from_val buf : Matrix T K M) r c
        = Except.ok (buf (matOffset K r c)) := by
  constructor <;>
    simp [Matrix.index, Matrix.from_ref, Matrix.from_val, StaticCowVec.from_ref,
      StaticCowVec.from_val, hr, hc]

/-- Witness for C6 on the 6-element test buffer viewed as 3×2, read at
(2, 1). -/
theorem from_flat_colmajor_witness :
    Matrix.index (Matrix.from_ref buf6 : Matrix ℤ 3 2) 2 1
        = Except.ok (buf6 (matOffset 3 2 1)) ∧
      Matrix.index (Matrix.from_val buf6 : Matrix ℤ 3 2) 2 1
        = Except.ok (buf6 (matOffset 3 2 1)) :=
  from_flat_colmajor buf6 2 1 (by decide) (by decide)

/-- C7: any mutating access on a Borrowed matrix (checked write through
IndexMut, or taking the mutable raw pointer) leaves the borrowed source
buffer unchanged: the full contents are duplicated into freshly owned
storage, the write lands on the duplicate (agreeing with the source
everywhere except the written offset), and afterwards is_owned answers
true.  The untouched source still backs the original Borrowed view. -/
theorem cow_write_spec {T : Type} {K M : Nat} (buf : Nat → T) (r c : Nat) (x : T)
    (hr : r < K) (hc : c < M) :
    StaticCowVec.is_borrowed (Matrix.from_ref buf : Matrix T K M) = true ∧
    Matrix.index_mut_set (Matrix.from_ref buf : Matrix T K M) r c x
      = Except.ok
          (StaticCowVec.get_unchecked_mut_set (Matrix.from_ref buf) (matOffset K r c) x) ∧
    StaticCowVec.is_owned
      (StaticCowVec.get_unchecked_mut_set (Matrix.from_ref buf : Matrix T K M)
        (matOffset K r c) x) = true ∧
    (StaticCowVec.get_unchecked_mut_set (Matrix.from_ref buf : Matrix T K M)
        (matOffset K r c) x).data (matOffset K r c) = x ∧
    (∀ o, o ≠ matOffset K r c →
      (StaticCowVec.get_unchecked_mut_set (Matrix.from_ref buf : Matrix T K M)
        (matOffset K r c) x).data o = buf o) ∧
    StaticCowVec.is_owned (StaticCowVec.as_mut_ptr (Matrix.from_ref buf : Matrix T K M))
      = true ∧
    (StaticCowVec.as_mut_ptr (Matrix.from_ref buf : Matrix T K M)).data = buf ∧
    (Matrix.from_ref buf : Matrix T K M).data = buf := by
  refine ⟨rfl, ?_, rfl, ?_, ?_, rfl, rfl, rfl⟩
  · simp only [Matrix.index_mut_set]
    rw [if_pos ⟨hr, hc⟩]
  · rw [get_unchecked_mut_set_data, if_pos rfl]
  · intro o ho
    rw [get_unchecked_mut_set_data, if_neg ho]
    rfl

/-- Witness for C7: a checked write at (0, 1) of the value 7 into a
Borrowed 3×2 view of the 6-element test buffer. -/
theorem cow_write_spec_witness :
    StaticCowVec.is_borrowed (Matrix.from_ref buf6 : Matrix ℤ 3 2) = true ∧
    Matrix.index_mut_set (Matrix.from_ref buf6 : Matrix ℤ 3 2) 0 1 7
      = Except.ok
          (StaticCowVec.get_unchecked_mut_set (Matrix.from_ref buf6) (matOffset 3 0 1) 7) ∧
    StaticCowVec.is_owned
      (StaticCowVec.get_unchecked_mut_set (Matrix.from_ref buf6 : Matrix ℤ 3 2)
        (matOffset 3 0 1) 7) = true ∧
    (StaticCowVec.get_unchecked_mut_set (Matrix.from_ref buf6 : Matrix ℤ 3 2)
        (matOffset 3 0 1) 7).data (matOffset 3 0 1) = 7 ∧
    (∀ o, o ≠ matOffset 3 0 1 →
      (StaticCowVec.get_unchecked_mut_set (Matrix.from_ref buf6 : Matrix ℤ 3 2)
        (matOffset 3 0 1) 7).data o = buf6 o) ∧
    StaticCowVec.is_owned (StaticCowVec.as_mut_ptr (Matrix.from_ref buf6 : Matrix ℤ 3 2))
      = true ∧
    (StaticCowVec.as_mut_ptr (Matrix.from_ref buf6 : Matrix ℤ 3 2)).data = buf6 ∧
    (Matrix.from_ref buf6 : Matrix ℤ 3 2).data = buf6 :=
  cow_write_spec buf6 0 1 7 (by decide) (by decide)

/-- C9: for every shape (K, M), zeros() yields an Owned matrix in which
every valid (row, col) pair reads the scalar zero. -/
theorem zeros_spec {T : Type} [Zero T] {K M : Nat} (r c : Nat) (hr : r < K) (hc : c < M) :
    StaticCowVec.is_owned (Matrix.zeros T K M) = true ∧
      Matrix.index (Matrix.zeros T K M) r c = Except.ok (0 : T) := by
  refine ⟨rfl, ?_⟩
  simp only [Matrix.index]
  rw [if_pos ⟨hr, hc⟩]
  rfl

/-- Witness for C9 at shape 2×2, read at (1, 1). -/
theorem zeros_spec_witness :
    StaticCowVec.is_owned (Matrix.zeros ℤ 2 2) = true ∧
      Matrix.index (Matrix.zeros ℤ 2 2) 1 1 = Except.ok (0 : ℤ) :=
  zeros_spec 1 1 (by decide) (by decide)

/-- C1 counterexample: at the concrete shapes K = 1, M = 2, N = 3 the
multiplication result is a 3-row, 2-column matrix, so the claim as
stated requires the first dimension integer passed to the backend to be
the result row count 3 (and the right operand leading dimension to be
the result column count 2); the code passes 2 as the first dimension and
3 as that leading dimension. -/
theorem mul_backend_call_cex :
    (Matrix.mulCall (Matrix.zeros ℤ 1 2) (Matrix.zeros ℤ 3 1)).m = 2 ∧
    (Matrix.mulCall (Matrix.zeros ℤ 1 2) (Matrix.zeros ℤ 3 1)).ldb = 3 ∧
    (2 : Nat) ≠ 3 :=
  ⟨rfl, rfl, by decide⟩

/-- C1 (amended): for every multiplication of a left K×M operand by a
right N×K operand, the component makes exactly one backend call passing:
row-major layout, no-transpose on both operands, the three dimension
integers in the order (result columns M, result rows N, shared dimension
K), a product scale factor of 1, the left operand read pointer with
leading dimension equal to the shared dimension K, the right operand
read pointer with leading dimension equal to the result row count N, an
accumulation scale factor of 0 on an output buffer zero-filled before
the call, and the output mutable pointer with leading dimension equal to
the result row count N; the returned matrix is exactly that Owned buffer
after the single backend invocation. -/
theorem mul_backend_call_amended {T : Type} [CommRing T] {M N K : Nat}
    (self : Matrix T K M) (other : Matrix T N K) :
    (Matrix.mulCall self other).layout = CBLAS_LAYOUT.CblasRowMajor ∧
    (Matrix.mulCall self other).transa = CBLAS_TRANSPOSE.CblasNoTrans ∧
    (Matrix.mulCall self other).transb = CBLAS_TRANSPOSE.CblasNoTrans ∧
    (Matrix.mulCall self other).m = M ∧
    (Matrix.mulCall self other).n = N ∧
    (Matrix.mulCall self other).k = K ∧
    (Matrix.mulCall self other).alpha = 1 ∧
    (Matrix.mulCall self other).a = StaticCowVec.as_ptr self ∧
    (Matrix.mulCall self other).lda = K ∧
    (Matrix.mulCall self other).b = StaticCowVec.as_ptr other ∧
    (Matrix.mulCall self other).ldb = N ∧
    (Matrix.mulCall self other).beta = 0 ∧
    (∀ o, (Matrix.mulCall self other).c o = 0) ∧
    (Matrix.mulCall self other).ldc = N ∧
    Matrix.mul self other
      = { mode := Mode.Owned, data := gemmRun (Matrix.mulCall self other) } :=
  ⟨rfl, rfl, rfl, rfl, rfl, rfl, rfl, rfl, rfl, rfl, rfl, rfl, fun _ => rfl, rfl, rfl⟩

/-- C2 counterexample: the claim describes the second literal test as a
4-row 3-column matrix times a 3-row 2-column matrix, but the Mul impl
accepts a right operand only when its column count equals the left
operand row count, and 2 ≠ 4: that multiplication cannot be
constructed. -/
theorem mul_shapes_cex : ¬ mulShapes 4 3 3 2 := by
  unfold mulShapes
  decide

/-- C2 (amended): multiplying the 3-row 2-column matrix built from the
flat buffer [1,2,3,4,5,6] by the 2-row 3-column matrix built from
[10,11,20,21,30,31] yields flat storage [140,146,320,335]; multiplying
the 3-row 4-column matrix built from [1..12] by the 2-row 3-column
matrix built from [3,6,8,10,9,17] (the shapes the repository tests use)
yields flat storage [46,77,106,176,166,275,226,374]. -/
theorem mul_literal_amended :
    (List.range 4).map (Matrix.mul testM testN).data = [140, 146, 320, 335] ∧
      (List.range 8).map (Matrix.mul testM2 testN2).data
        = [46, 77, 106, 176, 166, 275, 226, 374] := by
  decide

/-- C10: assuming the backend computes the standard row-major GEMM it is
invoked with (modelled by gemmRun), the product of a K×M left operand
and an N×K right operand is the N×M matrix whose entry at (row i, col j)
equals, for every i < N and j < M, the sum over t < K of
other[(i, t)] * self[(t, j)]: under the column-major logical view the
multiplication operator computes the conventional product with the
operands in reversed order (other times self). -/
theorem mul_entry_spec {T : Type} [CommRing T] {M N K : Nat}
    (self : Matrix T K M) (other : Matrix T N K) (i j : Nat)
    (hi : i < N) (hj : j < M) :
    Matrix.get_unchecked (Matrix.mul self other) i j
      = ((List.range K).map
          (fun t => Matrix.get_unchecked other i t * Matrix.get_unchecked self t j)).sum := by
  have hN : 0 < N := Nat.lt_of_le_of_lt (Nat.zero_le i) hi
  have hdiv : matOffset N i j / N = j := by
    simp only [matOffset]
    rw [Nat.add_mul_div_right i j hN, Nat.div_eq_of_lt hi, Nat.zero_add]
  have hmod : matOffset N i j % N = i := by
    simp only [matOffset]
    rw [Nat.add_mul_mod_self_right, Nat.mod_eq_of_lt hi]
  show gemmRun (Matrix.mulCall self other) (matOffset N i j) = _
  simp only [gemmRun, Matrix.mulCall, Matrix.get_unchecked, StaticCowVec.get_unchecked,
    StaticCowVec.as_ptr]
  rw [hdiv, hmod, if_pos ⟨hj, hi⟩, one_mul, zero_mul, add_zero]
  have hfun : (fun t => self.data (j * K + t) * other.data (t * N + i))
      = fun t => other.data (matOffset N i t) * self.data (matOffset K t j) := by
    funext t
    simp only [matOffset]
    rw [Nat.add_comm (j * K) t, Nat.add_comm (t * N) i, mul_comm]
  rw [hfun]

/-- Witness for C10 on the first repository multiplication test at
entry (0, 0). -/
theorem mul_entry_spec_witness :
    Matrix.get_unchecked (Matrix.mul testM testN) 0 0
      = ((List.range 3).map
          (fun t => Matrix.get_unchecked testN 0 t * Matrix.get_unchecked testM t 0)).sum :=
  mul_entry_spec testM testN 0 0 (by decide) (by decide)

end Slas
